import Mathlib

/-!
Shallow embedding of the Runixo agent's authentication gateway.

Sources embedded here:
* `internal/auth/auth.go` — the gRPC `AuthInterceptor` (attempt tracking with
  lockout, sweep, `authorize`), `GenerateSignedToken` / `ValidateSignedToken`,
  and the `SessionManager`.
* the HTTP API server (`package api`) — `authMiddleware`,
  `recordAPIFailedAttempt`, `cleanupLoop`.

Modelling conventions: Go byte slices and strings carrying credentials are
`List Nat` (one `Nat` per byte); `time.Time` and `time.Duration` are `Int`
seconds (Go's zero `time.Time` becomes `0`, which every `time.Now()` in a run
of the program is after); Go maps are association lists whose keys are unique;
`crypto/hmac` HMAC-SHA256 is an external primitive and is passed in as an
explicit function parameter `mac`; `crypto/subtle.ConstantTimeCompare` is
embedded with an explicit iteration counter so its cost is part of the model.
-/

namespace Runixo

/-- A Go byte slice / string, one `Nat` per byte. -/
abbrev Bytes := List Nat

/-- Lookup in a Go map modelled as an association list: value of the first
entry with the given key. -/
def mapLookup {α : Type} : List (String × α) → String → Option α
  | [], _ => none
  | e :: rest, k => if e.1 = k then some e.2 else mapLookup rest k

/-- Go map assignment `m[k] = v`: replace the first entry with key `k`, or
append a new entry when the key is absent. -/
def mapSet {α : Type} : List (String × α) → String → α → List (String × α)
  | [], k, v => [(k, v)]
  | e :: rest, k, v => if e.1 = k then (k, v) :: rest else e :: mapSet rest k v

/-- Go `delete(m, k)`. -/
def mapErase {α : Type} : List (String × α) → String → List (String × α)
  | [], _ => []
  | e :: rest, k => if e.1 = k then mapErase rest k else e :: mapErase rest k

/-- The keys of a map, in entry order. -/
def mapKeys {α : Type} (m : List (String × α)) : List String :=
  m.map Prod.fst

/-- Inner loop of Go's `crypto/subtle.ConstantTimeCompare`: or-accumulate the
xor of each byte pair, counting one step per iteration. -/
def ctLoop : List (Nat × Nat) → Nat × Nat → Nat × Nat
  | [], acc => acc
  | ab :: rest, acc => ctLoop rest (acc.1 ||| (ab.1 ^^^ ab.2), acc.2 + 1)

/-- `crypto/subtle.ConstantTimeCompare`, embedded with an explicit cost: the
first component is the Go return value (1 on equality, 0 otherwise), the
second the number of loop iterations executed. Mismatched lengths return
before the loop runs. -/
def constantTimeCompare (x y : Bytes) : Nat × Nat :=
  if x.length = y.length then
    let r := ctLoop (x.zip y) (0, 0)
    (if r.1 = 0 then 1 else 0, r.2)
  else (0, 0)

/-! ### gRPC interceptor attempt tracking (`internal/auth/auth.go`) -/

/-- `attemptInfo` from `auth.go`: failure count and lockout deadline. The Go
zero value has `lockedUntil` equal to the zero time, modelled as `0`. -/
structure AttemptInfo where
  count : Nat
  lockedUntil : Int
  deriving DecidableEq, Repr

/-- The `failedAttempts` map of the `AuthInterceptor`. -/
abbrev AttemptMap := List (String × AttemptInfo)

/-- `MaxFailedAttempts` from `auth.go`. -/
def maxFailedAttempts : Nat := 5

/-- `LockoutDuration` (15 minutes) in seconds. -/
def lockoutDuration : Int := 900

/-- `isLocked` from `auth.go`: an identity is locked while `now` is strictly
before its `lockedUntil`. -/
def isLocked (now : Int) (st : AttemptMap) (ip : String) : Bool :=
  match mapLookup st ip with
  | some info => decide (now < info.lockedUntil)
  | none => false

/-- `recordFailedAttempt` from `auth.go`: at the 10,000-record cap it first
sweeps entries whose `lockedUntil` has passed and drops the failure if the map
is still full; otherwise it increments the count and, whenever the
post-increment count reaches `MaxFailedAttempts`, sets the lockout deadline to
`now + LockoutDuration` and returns `true`. -/
def recordFailedAttempt (now : Int) (m : AttemptMap) (ip : String) : AttemptMap × Bool :=
  let m1 := if 10000 ≤ m.length then
      m.filter (fun e => !(decide (e.2.lockedUntil < now)))
    else m
  if 10000 ≤ m1.length then (m1, false)
  else
    let info := (mapLookup m1 ip).getD { count := 0, lockedUntil := 0 }
    let c := info.count + 1
    if maxFailedAttempts ≤ c then
      (mapSet m1 ip { count := c, lockedUntil := now + lockoutDuration }, true)
    else
      (mapSet m1 ip { count := c, lockedUntil := info.lockedUntil }, false)

/-- `resetFailedAttempts` from `auth.go`. -/
def resetFailedAttempts (m : AttemptMap) (ip : String) : AttemptMap :=
  mapErase m ip

/-- One sweep of `cleanupFailedAttempts` from `auth.go`: delete a record when
its lockout has passed and its count is below the threshold, or when more than
30 minutes have passed since `lockedUntil`. -/
def cleanupFailedAttempts (now : Int) (m : AttemptMap) : AttemptMap :=
  m.filter (fun e =>
    !((decide (e.2.lockedUntil < now) && decide (e.2.count < maxFailedAttempts))
      || decide (e.2.lockedUntil + 1800 < now)))

/-- The `"Bearer "` prefix bytes. -/
def bearerBytes : Bytes := [66, 101, 97, 114, 101, 114, 32]

/-- `strings.TrimPrefix(v, "Bearer ")`, also the guarded
`HasPrefix`/`TrimPrefix` pair in `authorize` (identical semantics): strip the
exact-case `"Bearer "` prefix when present. -/
def stripBearer (v : Bytes) : Bytes :=
  if bearerBytes.isPrefixOf v then v.drop 7 else v

/-- Outcome of the gRPC `authorize`: allow, or a gRPC status error. -/
inductive AuthResult where
  | ok
  | unauthenticated (msg : String)
  | resourceExhausted (msg : String)
  deriving DecidableEq, Repr

/-- Message of the lockout-check rejection in `authorize`. -/
def lockedRetryMsg : String := "认证失败次数过多，请稍后重试"

/-- Message of the just-locked rejection in `authorize`. -/
def lockedNowMsg : String := "认证失败次数过多，账户已锁定"

/-- Message of the missing-metadata rejection in `authorize`. -/
def missingMetadataMsg : String := "缺少元数据"

/-- Message of the missing-token rejection in `authorize`. -/
def missingTokenMsg : String := "缺少认证令牌"

/-- Message of the invalid-token rejection in `authorize`. -/
def invalidTokenMsg : String := "认证令牌无效"

/-- `authorize` from `auth.go`. `md` is the incoming metadata's
`authorization` values: `none` when `metadata.FromIncomingContext` fails,
otherwise the (possibly empty) value list. Returns the updated attempt map and
the result. -/
def authorize (cfg : Bytes) (now : Int) (st : AttemptMap) (ip : String)
    (md : Option (List Bytes)) : AttemptMap × AuthResult :=
  if isLocked now st ip then
    (st, .resourceExhausted lockedRetryMsg)
  else
    match md with
    | none => ((recordFailedAttempt now st ip).1, .unauthenticated missingMetadataMsg)
    | some [] => ((recordFailedAttempt now st ip).1, .unauthenticated missingTokenMsg)
    | some (v :: _) =>
      let tok := stripBearer v
      if (constantTimeCompare tok cfg).1 = 1 then
        (resetFailedAttempts st ip, .ok)
      else
        let r := recordFailedAttempt now st ip
        if r.2 then (r.1, .resourceExhausted lockedNowMsg)
        else (r.1, .unauthenticated invalidTokenMsg)

/-! ### HTTP API server attempt tracking (`package api`) -/

/-- `apiAttemptInfo` from the HTTP server: count, lockout deadline and last
attempt time. -/
structure ApiAttemptInfo where
  count : Nat
  lockedUntil : Int
  lastAttempt : Int
  deriving DecidableEq, Repr

/-- The HTTP server's `failedAttempts` map. -/
abbrev ApiAttemptMap := List (String × ApiAttemptInfo)

/-- `recordAPIFailedAttempt`: increment the count, stamp `lastAttempt`, and
set the lockout deadline whenever the post-increment count is at least 5.
There is no capacity check on this map. -/
def recordAPIFailedAttempt (now : Int) (m : ApiAttemptMap) (ip : String) : ApiAttemptMap :=
  let info := (mapLookup m ip).getD { count := 0, lockedUntil := 0, lastAttempt := 0 }
  let c := info.count + 1
  mapSet m ip
    { count := c
      lockedUntil := if 5 ≤ c then now + 900 else info.lockedUntil
      lastAttempt := now }

/-- One sweep of the HTTP server's `cleanupLoop`: delete a record when its
lockout has passed and more than 30 minutes have passed since `lastAttempt`. -/
def cleanupLoop (now : Int) (m : ApiAttemptMap) : ApiAttemptMap :=
  m.filter (fun e =>
    !(decide (e.2.lockedUntil < now) && decide (1800 < now - e.2.lastAttempt)))

/-- Outcome of the HTTP `authMiddleware`: pass-through, or a JSON error with
its message, HTTP status code and optional `Retry-After` header value. -/
inductive HttpResult where
  | ok
  | err (msg : String) (code : Nat) (retryAfter : Option Nat)
  deriving DecidableEq, Repr

/-- `authMiddleware` from the HTTP server. `auth` is the `Authorization`
header value (`[]` when the header is absent, as `Header.Get` returns the
empty string). -/
def authMiddleware (cfg : Bytes) (now : Int) (st : ApiAttemptMap) (ip : String)
    (auth : Bytes) : ApiAttemptMap × HttpResult :=
  let lockedNow :=
    match mapLookup st ip with
    | some info => decide (now < info.lockedUntil)
    | none => false
  if lockedNow then
    (st, .err "Too many failed attempts" 429 (some 900))
  else if auth = [] then
    (recordAPIFailedAttempt now st ip, .err "Missing authorization header" 401 none)
  else
    let tok := stripBearer auth
    if (constantTimeCompare tok cfg).1 = 1 then
      (mapErase st ip, .ok)
    else
      (recordAPIFailedAttempt now st ip, .err "Invalid token" 401 none)

/-! ### Session manager (`internal/auth/auth.go`) -/

/-- `SessionInfo` from `auth.go`. -/
structure SessionInfo where
  token : String
  clientIP : String
  createdAt : Int
  lastUsed : Int
  deriving DecidableEq, Repr

/-- The `SessionManager`'s map from token to session. -/
abbrev SessionMap := List (String × SessionInfo)

/-- `CreateSession`: insert (or overwrite) the session for `token`, stamping
both timestamps with `now`, and return it. -/
def createSession (now : Int) (m : SessionMap) (token clientIP : String) :
    SessionMap × SessionInfo :=
  (mapSet m token { token := token, clientIP := clientIP, createdAt := now, lastUsed := now },
   { token := token, clientIP := clientIP, createdAt := now, lastUsed := now })

/-- `ValidateSession`: a missing session returns `(nil, nil)` — absence with
no error; a present session has its `lastUsed` refreshed to `now` and is
returned. The third component is the Go `error` value, literally `nil` on
both paths. -/
def validateSession (now : Int) (m : SessionMap) (token : String) :
    SessionMap × Option SessionInfo × Option String :=
  match mapLookup m token with
  | none => (m, none, none)
  | some s =>
    (mapSet m token { s with lastUsed := now }, some { s with lastUsed := now }, none)

/-- `RevokeSession`. -/
def revokeSession (m : SessionMap) (token : String) : SessionMap :=
  mapErase m token

/-- `RevokeAllSessions`. -/
def revokeAllSessions (_ : SessionMap) : SessionMap :=
  []

/-- `GetActiveSessions`. -/
def getActiveSessions (m : SessionMap) : Nat :=
  m.length

/-! ### Signed delegated tokens (`internal/auth/auth.go`)

`GenerateSignedToken` composes the standard library's `encoding/json`,
`encoding/base64` (`RawURLEncoding`, the unpadded url-safe alphabet) and
`crypto/hmac`. The codecs are embedded concretely below; HMAC-SHA256 stays an
explicit function parameter `mac : key → message → digest`. -/

/-- Value of the `n`-th character (`n < 64`) of the base64url alphabet
`A-Z a-z 0-9 - _`, as a byte. -/
def b64Char (n : Nat) : Nat :=
  if n < 26 then 65 + n
  else if n < 52 then 97 + (n - 26)
  else if n < 62 then 48 + (n - 52)
  else if n = 62 then 45
  else 95

/-- Inverse of the base64url alphabet: byte to 6-bit value, `none` for bytes
outside the alphabet. -/
def b64CharInv (c : Nat) : Option Nat :=
  if 65 ≤ c ∧ c ≤ 90 then some (c - 65)
  else if 97 ≤ c ∧ c ≤ 122 then some (c - 97 + 26)
  else if 48 ≤ c ∧ c ≤ 57 then some (c - 48 + 52)
  else if c = 45 then some 62
  else if c = 95 then some 63
  else none

/-- `base64.RawURLEncoding.EncodeToString`: three input bytes become four
alphabet bytes; a final remainder of one or two bytes becomes two or three
characters, with no padding. -/
def base64urlEncode : Bytes → Bytes
  | b1 :: b2 :: b3 :: rest =>
    b64Char (b1 / 4) :: b64Char (b1 % 4 * 16 + b2 / 16) ::
      b64Char (b2 % 16 * 4 + b3 / 64) :: b64Char (b3 % 64) :: base64urlEncode rest
  | [] => []
  | [b1] => [b64Char (b1 / 4), b64Char (b1 % 4 * 16)]
  | [b1, b2] => [b64Char (b1 / 4), b64Char (b1 % 4 * 16 + b2 / 16), b64Char (b2 % 16 * 4)]

/-- `base64.RawURLEncoding.DecodeString`: `none` on a byte outside the
alphabet or on a remainder of one character. -/
def base64urlDecode : Bytes → Option Bytes
  | c1 :: c2 :: c3 :: c4 :: rest => do
    let n1 ← b64CharInv c1
    let n2 ← b64CharInv c2
    let n3 ← b64CharInv c3
    let n4 ← b64CharInv c4
    let tail ← base64urlDecode rest
    some ((n1 * 4 + n2 / 16) :: (n2 % 16 * 16 + n3 / 4) :: (n3 % 4 * 64 + n4) :: tail)
  | [] => some []
  | [_] => none
  | [c1, c2] => do
    let n1 ← b64CharInv c1
    let n2 ← b64CharInv c2
    some [n1 * 4 + n2 / 16]
  | [c1, c2, c3] => do
    let n1 ← b64CharInv c1
    let n2 ← b64CharInv c2
    let n3 ← b64CharInv c3
    some [n1 * 4 + n2 / 16, n2 % 16 * 16 + n3 / 4]

/-- `tokenClaims` from `auth.go`: the signed payload `{tok, iat, exp}`. -/
structure TokenClaims where
  tok : Bytes
  iat : Int
  exp : Int
  deriving DecidableEq, Repr

/-- Decimal digit bytes of a positive number, most significant first, with a
structural fuel argument so that the definition evaluates inside the kernel. -/
def natBytesAux : Nat → Nat → Bytes
  | 0, _ => []
  | _ + 1, 0 => []
  | fuel + 1, n + 1 => natBytesAux fuel ((n + 1) / 10) ++ [(n + 1) % 10 + 48]

/-- Decimal digit bytes of a natural number, most significant first. -/
def natBytes (n : Nat) : Bytes :=
  if n = 0 then [48] else natBytesAux n n

/-- `encoding/json`'s rendering of an `int64`: optional `-` then digits. -/
def intBytes : Int → Bytes
  | Int.ofNat n => natBytes n
  | Int.negSucc n => 45 :: natBytes (n + 1)

/-- `json.Marshal` of a `tokenClaims` value:
`\x7b"tok":"<tok>","iat":<iat>,"exp":<exp>\x7d`. Faithful to Go for token
strings that need no JSON escaping (the generated tokens are lowercase hex). -/
def jsonMarshalClaims (c : TokenClaims) : Bytes :=
  [123, 34, 116, 111, 107, 34, 58, 34] ++ c.tok
    ++ [34, 44, 34, 105, 97, 116, 34, 58] ++ intBytes c.iat
    ++ [44, 34, 101, 120, 112, 34, 58] ++ intBytes c.exp ++ [125]

/-- Split a byte list at the first occurrence of `b`; `none` when absent. -/
def takeUntilByte (b : Nat) : Bytes → Option (Bytes × Bytes)
  | [] => none
  | c :: rest =>
    if c = b then some ([], rest)
    else
      match takeUntilByte b rest with
      | none => none
      | some (pre, post) => some (c :: pre, post)

/-- Drop an exact byte sequence from the front, `none` when it is not there. -/
def dropExact (p l : Bytes) : Option Bytes :=
  if p.isPrefixOf l then some (l.drop p.length) else none

/-- Parse a nonempty run of decimal digit bytes. -/
def parseNatBytes (l : Bytes) : Option Nat :=
  if l = [] then none
  else if l.all (fun c => decide (48 ≤ c) && decide (c ≤ 57)) then
    some (l.foldl (fun a c => a * 10 + (c - 48)) 0)
  else none

/-- Parse an optionally `-`-signed run of decimal digit bytes. -/
def parseIntBytes (l : Bytes) : Option Int :=
  if l.head? = some 45 then (parseNatBytes l.tail).map (fun n : Nat => -(n : Int))
  else (parseNatBytes l).map (fun n : Nat => (n : Int))

/-- `json.Unmarshal` into `tokenClaims`, specialised to the canonical shape
`jsonMarshalClaims` emits (the only shape the validator ever feeds it on the
round-trip path). -/
def jsonUnmarshalClaims (l : Bytes) : Option TokenClaims := do
  let r1 ← dropExact [123, 34, 116, 111, 107, 34, 58, 34] l
  let (tok, r2) ← takeUntilByte 34 r1
  let r3 ← dropExact [44, 34, 105, 97, 116, 34, 58] r2
  let (iatB, r4) ← takeUntilByte 44 r3
  let iat ← parseIntBytes iatB
  let r5 ← dropExact [34, 101, 120, 112, 34, 58] r4
  let (expB, r6) ← takeUntilByte 125 r5
  let exp ← parseIntBytes expB
  if r6 = [] then some { tok := tok, iat := iat, exp := exp } else none

/-- The encoded payload segment of a signed token: base64url of the JSON
claims built from the fresh random token `raw`, `iat = now` and
`exp = now + ttl`. -/
def signedPayload (raw : Bytes) (now ttl : Int) : Bytes :=
  base64urlEncode (jsonMarshalClaims { tok := raw, iat := now, exp := now + ttl })

/-- The signature segment: base64url of the HMAC of the *encoded* payload. -/
def signedSig (mac : Bytes → Bytes → Bytes) (key raw : Bytes) (now ttl : Int) : Bytes :=
  base64urlEncode (mac key (signedPayload raw now ttl))

/-- `GenerateSignedToken` from `auth.go`, with the random token `raw` and the
clock reading `now` passed in: `payloadB64 ++ "." ++ sigB64`. -/
def generateSignedToken (mac : Bytes → Bytes → Bytes) (key raw : Bytes)
    (now ttl : Int) : Bytes :=
  signedPayload raw now ttl ++ 46 :: signedSig mac key raw now ttl

/-- The error cases of `ValidateSignedToken`, in source order. -/
inductive TokenError where
  | invalidFormat
  | invalidSignature
  | invalidPayload
  | invalidClaims
  deriving DecidableEq, Repr

/-- `strings.SplitN(token, ".", 2)`: `none` when there is no dot (the
`len(parts) != 2` case), otherwise the segments before and after the first
dot. -/
def splitFirstDot : Bytes → Option (Bytes × Bytes)
  | [] => none
  | c :: rest =>
    if c = 46 then some ([], rest)
    else
      match splitFirstDot rest with
      | none => none
      | some (a, b) => some (c :: a, b)

/-- `ValidateSignedToken` from `auth.go`: split on the first dot, compare the
signature segment against the recomputed HMAC in constant time, then decode
and deserialise the payload. There is no comparison of `exp` against a clock
— the function does not even take the current time. -/
def validateSignedToken (mac : Bytes → Bytes → Bytes) (token key : Bytes) :
    Except TokenError Unit :=
  match splitFirstDot token with
  | none => .error .invalidFormat
  | some (payloadB64, sigB64) =>
    if (constantTimeCompare sigB64 (base64urlEncode (mac key payloadB64))).1 = 1 then
      match base64urlDecode payloadB64 with
      | none => .error .invalidPayload
      | some payload =>
        match jsonUnmarshalClaims payload with
        | none => .error .invalidClaims
        | some _ => .ok ()
    else .error .invalidSignature

/-! ### Map lemmas -/

theorem mapLookup_set_self {α : Type} (m : List (String × α)) (k : String) (v : α) :
    mapLookup (mapSet m k v) k = some v := by
  induction m with
  | nil => simp [mapSet, mapLookup]
  | cons e rest ih =>
    by_cases h : e.1 = k
    · simp [mapSet, h, mapLookup]
    · simp [mapSet, h, mapLookup, ih]

theorem mapSet_length_absent {α : Type} (m : List (String × α)) (k : String) (v : α)
    (h : mapLookup m k = none) : (mapSet m k v).length = m.length + 1 := by
  induction m with
  | nil => simp [mapSet]
  | cons e rest ih =>
    simp only [mapLookup] at h
    by_cases he : e.1 = k
    · simp [he] at h
    · simp only [he, if_false] at h
      simp [mapSet, he, ih h]

theorem mapSet_length_present {α : Type} (m : List (String × α)) (k : String) (v w : α)
    (h : mapLookup m k = some w) : (mapSet m k v).length = m.length := by
  induction m with
  | nil => simp [mapLookup] at h
  | cons e rest ih =>
    simp only [mapLookup] at h
    by_cases he : e.1 = k
    · simp [mapSet, he]
    · simp only [he, if_false] at h
      simp [mapSet, he, ih h]

theorem mapKeys_mapSet_present {α : Type} (m : List (String × α)) (k : String) (v w : α)
    (h : mapLookup m k = some w) : mapKeys (mapSet m k v) = mapKeys m := by
  induction m with
  | nil => simp [mapLookup] at h
  | cons e rest ih =>
    simp only [mapLookup] at h
    by_cases he : e.1 = k
    · simp [mapSet, he, mapKeys]
    · simp only [he, if_false] at h
      simp [mapSet, he, mapKeys] at ih ⊢
      exact ih h

theorem mem_mapErase {α : Type} (m : List (String × α)) (k : String) (e : String × α) :
    e ∈ mapErase m k ↔ e ∈ m ∧ e.1 ≠ k := by
  induction m with
  | nil => simp [mapErase]
  | cons f rest ih =>
    by_cases hf : f.1 = k
    · simp only [mapErase, hf, if_true, ih, List.mem_cons]
      constructor
      · rintro ⟨h1, h2⟩; exact ⟨Or.inr h1, h2⟩
      · rintro ⟨h1 | h1, h2⟩
        · subst h1; exact absurd hf h2
        · exact ⟨h1, h2⟩
    · simp only [mapErase, hf, if_false, List.mem_cons, ih]
      constructor
      · rintro (rfl | ⟨h1, h2⟩)
        · exact ⟨Or.inl rfl, hf⟩
        · exact ⟨Or.inr h1, h2⟩
      · rintro ⟨rfl | h1, h2⟩
        · exact Or.inl rfl
        · exact Or.inr ⟨h1, h2⟩

theorem mapLookup_eq_none {α : Type} (m : List (String × α)) (k : String)
    (h : ∀ e ∈ m, e.1 ≠ k) : mapLookup m k = none := by
  induction m with
  | nil => rfl
  | cons e rest ih =>
    simp only [mapLookup, h e (List.mem_cons_self e rest), if_false]
    exact ih fun f hf => h f (List.mem_cons_of_mem e hf)

/-! ### Constant-time comparison lemmas -/

theorem ctLoop_snd (l : List (Nat × Nat)) (acc : Nat × Nat) :
    (ctLoop l acc).2 = acc.2 + l.length := by
  induction l generalizing acc with
  | nil => simp [ctLoop]
  | cons ab rest ih => simp [ctLoop, ih]; omega

theorem nat_or_eq_zero (m n : Nat) : m ||| n = 0 ↔ m = 0 ∧ n = 0 := by
  constructor
  · intro h
    refine ⟨Nat.eq_of_testBit_eq fun i => ?_, Nat.eq_of_testBit_eq fun i => ?_⟩ <;>
      · have := congrArg (fun x => Nat.testBit x i) h
        simp only [Nat.testBit_or, Nat.zero_testBit, Bool.or_eq_false_iff] at this
        simp [this.1, this.2, Nat.zero_testBit]
  · rintro ⟨rfl, rfl⟩; rfl

theorem ctLoop_fst_eq_zero (l : List (Nat × Nat)) (acc : Nat × Nat) :
    (ctLoop l acc).1 = 0 ↔ acc.1 = 0 ∧ ∀ ab ∈ l, ab.1 = ab.2 := by
  induction l generalizing acc with
  | nil => simp [ctLoop]
  | cons ab rest ih =>
    simp only [ctLoop, ih, nat_or_eq_zero, Nat.xor_eq_zero, List.mem_cons]
    constructor
    · rintro ⟨⟨h1, h2⟩, h3⟩
      exact ⟨h1, fun p hp => hp.elim (fun hh => hh ▸ h2) (h3 p)⟩
    · rintro ⟨h1, h2⟩
      exact ⟨⟨h1, h2 ab (Or.inl rfl)⟩, fun p hp => h2 p (Or.inr hp)⟩

theorem zip_self_diag (x : Bytes) : ∀ ab ∈ x.zip x, ab.1 = ab.2 := by
  induction x with
  | nil => simp
  | cons a t ih =>
    intro ab hab
    rcases List.mem_cons.mp hab with h | h
    · rw [h]
    · exact ih ab h

theorem eq_of_zip_diag (x y : Bytes) (hlen : x.length = y.length)
    (h : ∀ ab ∈ x.zip y, ab.1 = ab.2) : x = y := by
  induction x generalizing y with
  | nil => cases y with
    | nil => rfl
    | cons b ys => simp at hlen
  | cons a xs ih =>
    cases y with
    | nil => simp at hlen
    | cons b ys =>
      simp only [List.zip_cons_cons, List.mem_cons] at h
      have hab : a = b := h (a, b) (Or.inl rfl)
      have := ih ys (by simpa using hlen) (fun p hp => h p (Or.inr hp))
      rw [hab, this]

theorem constantTimeCompare_fst (x y : Bytes) :
    (constantTimeCompare x y).1 = 1 ↔ x = y := by
  unfold constantTimeCompare
  by_cases hlen : x.length = y.length
  · simp only [hlen, if_true]
    by_cases hz : (ctLoop (x.zip y) (0, 0)).1 = 0
    · simp only [hz, if_true]
      rcases (ctLoop_fst_eq_zero (x.zip y) (0, 0)).mp hz with ⟨-, hall⟩
      simp [eq_of_zip_diag x y hlen hall]
    · simp only [hz, if_false]
      constructor
      · omega
      · rintro rfl
        exact absurd ((ctLoop_fst_eq_zero (x.zip x) (0, 0)).mpr ⟨rfl, zip_self_diag x⟩) hz
  · simp only [hlen, if_false]
    constructor
    · omega
    · rintro rfl; exact absurd rfl hlen

theorem constantTimeCompare_snd (x y : Bytes) :
    (constantTimeCompare x y).2 = if x.length = y.length then x.length else 0 := by
  unfold constantTimeCompare
  by_cases hlen : x.length = y.length
  · simp [hlen, ctLoop_snd, List.length_zip]
  · simp [hlen]

/-! ### recordFailedAttempt step lemmas -/

theorem recordFailedAttempt_no_sweep (now : Int) (m : AttemptMap) (ip : String)
    (h : m.length < 10000) :
    recordFailedAttempt now m ip =
      (if maxFailedAttempts ≤ ((mapLookup m ip).getD ⟨0, 0⟩).count + 1 then
        (mapSet m ip ⟨((mapLookup m ip).getD ⟨0, 0⟩).count + 1, now + lockoutDuration⟩, true)
       else
        (mapSet m ip ⟨((mapLookup m ip).getD ⟨0, 0⟩).count + 1,
          ((mapLookup m ip).getD ⟨0, 0⟩).lockedUntil⟩, false)) := by
  unfold recordFailedAttempt
  have hn : ¬ (10000 ≤ m.length) := by omega
  simp only [if_neg hn]

theorem recordFailedAttempt_absent (now : Int) (m : AttemptMap) (ip : String)
    (h : m.length < 10000) (habs : mapLookup m ip = none) :
    recordFailedAttempt now m ip = (mapSet m ip ⟨1, 0⟩, false) := by
  rw [recordFailedAttempt_no_sweep now m ip h, habs]
  norm_num [maxFailedAttempts]

theorem recordFailedAttempt_found_low (now : Int) (m : AttemptMap) (ip : String)
    (c : Nat) (l : Int) (h : m.length < 10000) (hfound : mapLookup m ip = some ⟨c, l⟩)
    (hc : c + 1 < maxFailedAttempts) :
    recordFailedAttempt now m ip = (mapSet m ip ⟨c + 1, l⟩, false) := by
  rw [recordFailedAttempt_no_sweep now m ip h, hfound]
  simp only [Option.getD_some]
  rw [if_neg (by omega)]

theorem recordFailedAttempt_found_high (now : Int) (m : AttemptMap) (ip : String)
    (c : Nat) (l : Int) (h : m.length < 10000) (hfound : mapLookup m ip = some ⟨c, l⟩)
    (hc : maxFailedAttempts ≤ c + 1) :
    recordFailedAttempt now m ip = (mapSet m ip ⟨c + 1, now + lockoutDuration⟩, true) := by
  rw [recordFailedAttempt_no_sweep now m ip h, hfound]
  simp only [Option.getD_some]
  rw [if_pos hc]

/-! ### Base64url lemmas -/

theorem b64CharInv_b64Char : ∀ n : Nat, n < 64 → b64CharInv (b64Char n) = some n := by
  decide

theorem b64Char_ne_dot (n : Nat) : b64Char n ≠ 46 := by
  unfold b64Char
  repeat' split
  all_goals omega

theorem mem_base64urlEncode (l : Bytes) : ∀ c ∈ base64urlEncode l, ∃ n, c = b64Char n := by
  induction l using base64urlEncode.induct with
  | case1 b1 b2 b3 rest ih =>
    intro c hc
    rw [base64urlEncode] at hc
    rcases List.mem_cons.mp hc with rfl | hc
    · exact ⟨_, rfl⟩
    rcases List.mem_cons.mp hc with rfl | hc
    · exact ⟨_, rfl⟩
    rcases List.mem_cons.mp hc with rfl | hc
    · exact ⟨_, rfl⟩
    rcases List.mem_cons.mp hc with rfl | hc
    · exact ⟨_, rfl⟩
    exact ih c hc
  | case2 => simp [base64urlEncode]
  | case3 b1 =>
    intro c hc
    rw [base64urlEncode] at hc
    rcases List.mem_cons.mp hc with rfl | hc
    · exact ⟨_, rfl⟩
    rcases List.mem_cons.mp hc with rfl | hc
    · exact ⟨_, rfl⟩
    simp at hc
  | case4 b1 b2 =>
    intro c hc
    rw [base64urlEncode] at hc
    rcases List.mem_cons.mp hc with rfl | hc
    · exact ⟨_, rfl⟩
    rcases List.mem_cons.mp hc with rfl | hc
    · exact ⟨_, rfl⟩
    rcases List.mem_cons.mp hc with rfl | hc
    · exact ⟨_, rfl⟩
    simp at hc

theorem base64urlEncode_no_dot (l : Bytes) : 46 ∉ base64urlEncode l := by
  intro h
  rcases mem_base64urlEncode l 46 h with ⟨n, hn⟩
  exact b64Char_ne_dot n hn.symm

theorem base64_roundtrip : ∀ l : Bytes, (∀ b ∈ l, b < 256) →
    base64urlDecode (base64urlEncode l) = some l := by
  intro l
  induction l using base64urlEncode.induct with
  | case1 b1 b2 b3 rest ih =>
    intro h
    have h1 : b1 < 256 := h b1 (by simp)
    have h2 : b2 < 256 := h b2 (by simp)
    have h3 : b3 < 256 := h b3 (by simp)
    rw [base64urlEncode, base64urlDecode]
    rw [b64CharInv_b64Char _ (by omega), b64CharInv_b64Char _ (by omega),
      b64CharInv_b64Char _ (by omega), b64CharInv_b64Char _ (by omega)]
    rw [ih (fun b hb => h b (by simp [hb]))]
    simp only [Option.bind_eq_bind, Option.some_bind, Option.some.injEq, List.cons.injEq]
    refine ⟨by omega, by omega, by omega, trivial⟩
  | case2 => intro h; rfl
  | case3 b1 =>
    intro h
    have h1 : b1 < 256 := h b1 (by simp)
    rw [base64urlEncode, base64urlDecode]
    rw [b64CharInv_b64Char _ (by omega), b64CharInv_b64Char _ (by omega)]
    simp only [Option.bind_eq_bind, Option.some_bind, Option.some.injEq, List.cons.injEq]
    refine ⟨by omega, trivial⟩
  | case4 b1 b2 =>
    intro h
    have h1 : b1 < 256 := h b1 (by simp)
    have h2 : b2 < 256 := h b2 (by simp)
    rw [base64urlEncode, base64urlDecode]
    rw [b64CharInv_b64Char _ (by omega), b64CharInv_b64Char _ (by omega),
      b64CharInv_b64Char _ (by omega)]
    simp only [Option.bind_eq_bind, Option.some_bind, Option.some.injEq, List.cons.injEq]
    refine ⟨by omega, by omega, trivial⟩

/-! ### Decimal and JSON codec lemmas -/

theorem natBytesAux_mem : ∀ (fuel n : Nat), ∀ c ∈ natBytesAux fuel n, 48 ≤ c ∧ c ≤ 57 := by
  intro fuel
  induction fuel with
  | zero => simp [natBytesAux]
  | succ f ih =>
    intro n c hc
    cases n with
    | zero => simp [natBytesAux] at hc
    | succ k =>
      rw [natBytesAux] at hc
      rcases List.mem_append.mp hc with h | h
      · exact ih _ c h
      · simp only [List.mem_singleton] at h
        omega

theorem natBytesAux_foldl : ∀ (fuel : Nat), ∀ (n acc : Nat), n < 10 ^ fuel →
    (natBytesAux fuel n).foldl (fun a c => a * 10 + (c - 48)) acc
      = acc * 10 ^ (natBytesAux fuel n).length + n := by
  intro fuel
  induction fuel with
  | zero =>
    intro n acc h
    have hn : n = 0 := by simpa using h
    subst hn
    simp [natBytesAux]
  | succ f ih =>
    intro n acc h
    cases n with
    | zero => simp [natBytesAux]
    | succ k =>
      rw [natBytesAux]
      rw [List.foldl_append]
      have hp : (10 : Nat) ^ (f + 1) = 10 * 10 ^ f := by ring
      have hdiv : (k + 1) / 10 < 10 ^ f := by omega
      rw [ih _ _ hdiv]
      simp only [List.length_append, List.length_singleton, List.foldl_cons, List.foldl_nil]
      rw [pow_succ, ← mul_assoc]
      generalize acc * 10 ^ (natBytesAux f ((k + 1) / 10)).length = A
      omega

theorem natBytes_mem (n : Nat) : ∀ c ∈ natBytes n, 48 ≤ c ∧ c ≤ 57 := by
  unfold natBytes
  split
  · simp
  · exact natBytesAux_mem n n

theorem natBytesAux_ne_nil (k fuel : Nat) : natBytesAux (fuel + 1) (k + 1) ≠ [] := by
  rw [natBytesAux]
  simp

theorem parseNatBytes_natBytes (n : Nat) : parseNatBytes (natBytes n) = some n := by
  unfold natBytes
  split
  · subst n
    rfl
  · rename_i hn
    unfold parseNatBytes
    have hne : natBytesAux n n ≠ [] := by
      cases n with
      | zero => exact absurd rfl hn
      | succ k => exact natBytesAux_ne_nil k k
    rw [if_neg hne]
    have hall : (natBytesAux n n).all (fun c => decide (48 ≤ c) && decide (c ≤ 57)) = true := by
      rw [List.all_eq_true]
      intro c hc
      have := natBytesAux_mem n n c hc
      simp [this.1, this.2]
    rw [if_pos hall]
    have hlt : n < 10 ^ n := Nat.lt_pow_self (by norm_num) n
    rw [natBytesAux_foldl n n 0 hlt]
    simp

theorem natBytes_head_ne_neg (n : Nat) : natBytes n ≠ [] ∧ (natBytes n).head? ≠ some 45 := by
  have hmem := natBytes_mem n
  have hne : natBytes n ≠ [] := by
    unfold natBytes
    split
    · simp
    · rename_i hn
      cases n with
      | zero => exact absurd rfl hn
      | succ k => exact natBytesAux_ne_nil k k
  refine ⟨hne, ?_⟩
  intro hh
  have h45 : 45 ∈ natBytes n := by
    cases hl : natBytes n with
    | nil => exact absurd hl hne
    | cons a t =>
      rw [hl] at hh
      simp at hh
      simp [hl, hh]
  have := hmem 45 h45
  omega

theorem parseIntBytes_intBytes (i : Int) : parseIntBytes (intBytes i) = some i := by
  cases i with
  | ofNat n =>
    unfold intBytes parseIntBytes
    rw [if_neg (natBytes_head_ne_neg n).2]
    rw [parseNatBytes_natBytes]
    rfl
  | negSucc n =>
    unfold intBytes parseIntBytes
    simp only [List.head?_cons, if_pos rfl, List.tail_cons]
    rw [parseNatBytes_natBytes]
    simp [Int.negSucc_eq]

theorem intBytes_mem (i : Int) : ∀ c ∈ intBytes i, c = 45 ∨ (48 ≤ c ∧ c ≤ 57) := by
  cases i with
  | ofNat n =>
    intro c hc
    exact Or.inr (natBytes_mem n c hc)
  | negSucc n =>
    intro c hc
    rcases List.mem_cons.mp hc with rfl | hc
    · exact Or.inl rfl
    · exact Or.inr (natBytes_mem (n + 1) c hc)

theorem takeUntilByte_append (b : Nat) (xs ys : Bytes) (h : b ∉ xs) :
    takeUntilByte b (xs ++ b :: ys) = some (xs, ys) := by
  induction xs with
  | nil => simp [takeUntilByte]
  | cons c rest ih =>
    have hcb : c ≠ b := fun hh => h (hh ▸ List.mem_cons_self c rest)
    have hmem : b ∉ rest := fun hh => h (List.mem_cons_of_mem c hh)
    rw [List.cons_append, takeUntilByte]
    rw [if_neg hcb, ih hmem]

theorem dropExact_append (p rest : Bytes) : dropExact p (p ++ rest) = some rest := by
  unfold dropExact
  rw [if_pos (List.isPrefixOf_iff_prefix.mpr (List.prefix_append p rest))]
  rw [List.drop_left]

theorem splitFirstDot_append (xs ys : Bytes) (h : 46 ∉ xs) :
    splitFirstDot (xs ++ 46 :: ys) = some (xs, ys) := by
  induction xs with
  | nil => simp [splitFirstDot]
  | cons c rest ih =>
    have hcb : c ≠ 46 := fun hh => h (hh ▸ List.mem_cons_self c rest)
    have hmem : 46 ∉ rest := fun hh => h (List.mem_cons_of_mem c hh)
    rw [List.cons_append, splitFirstDot]
    rw [if_neg hcb, ih hmem]

theorem jsonMarshalClaims_bytes_lt (c : TokenClaims) (h : ∀ b ∈ c.tok, b < 256) :
    ∀ b ∈ jsonMarshalClaims c, b < 256 := by
  intro b hb
  unfold jsonMarshalClaims at hb
  simp only [List.append_assoc, List.mem_append, List.mem_cons, List.mem_singleton,
    List.not_mem_nil, or_false] at hb
  rcases hb with hb | hb | hb | hb | hb | hb | hb
  · omega
  · exact h b hb
  · omega
  · rcases intBytes_mem c.iat b hb with hb | hb <;> omega
  · omega
  · rcases intBytes_mem c.exp b hb with hb | hb <;> omega
  · omega

theorem iatSep_cons (x : Bytes) :
    ([34, 44, 34, 105, 97, 116, 34, 58] : Bytes) ++ x
      = 34 :: ([44, 34, 105, 97, 116, 34, 58] ++ x) := rfl

theorem expSep_cons (x : Bytes) :
    ([44, 34, 101, 120, 112, 34, 58] : Bytes) ++ x
      = 44 :: ([34, 101, 120, 112, 34, 58] ++ x) := rfl

theorem jsonUnmarshal_jsonMarshal (c : TokenClaims) (h34 : 34 ∉ c.tok) :
    jsonUnmarshalClaims (jsonMarshalClaims c) = some c := by
  have hiat44 : 44 ∉ intBytes c.iat := by
    intro hm
    rcases intBytes_mem c.iat 44 hm with h | h <;> omega
  have hexp125 : 125 ∉ intBytes c.exp := by
    intro hm
    rcases intBytes_mem c.exp 125 hm with h | h <;> omega
  unfold jsonUnmarshalClaims jsonMarshalClaims
  simp only [List.append_assoc]
  rw [dropExact_append]
  simp only [Option.bind_eq_bind, Option.some_bind]
  rw [iatSep_cons]
  rw [takeUntilByte_append 34 c.tok _ h34]
  simp only [Option.some_bind]
  rw [dropExact_append]
  simp only [Option.some_bind]
  rw [expSep_cons]
  rw [takeUntilByte_append 44 (intBytes c.iat) _ hiat44]
  simp only [Option.some_bind]
  rw [parseIntBytes_intBytes]
  simp only [Option.some_bind]
  rw [dropExact_append]
  simp only [Option.some_bind]
  rw [takeUntilByte_append 125 (intBytes c.exp) [] hexp125]
  simp only [Option.some_bind]
  rw [parseIntBytes_intBytes]
  simp only [Option.some_bind]
  rfl

theorem validate_generate (mac : Bytes → Bytes → Bytes) (key raw : Bytes) (now ttl : Int)
    (hraw : ∀ b ∈ raw, b < 256) (hq : 34 ∉ raw) :
    validateSignedToken mac (generateSignedToken mac key raw now ttl) key = .ok () := by
  have hnd : 46 ∉ signedPayload raw now ttl := base64urlEncode_no_dot _
  have hdec : base64urlDecode (signedPayload raw now ttl)
      = some (jsonMarshalClaims { tok := raw, iat := now, exp := now + ttl }) :=
    base64_roundtrip _ (jsonMarshalClaims_bytes_lt _ hraw)
  have hsig : (constantTimeCompare (signedSig mac key raw now ttl)
      (base64urlEncode (mac key (signedPayload raw now ttl)))).1 = 1 :=
    (constantTimeCompare_fst _ _).mpr rfl
  unfold generateSignedToken validateSignedToken
  rw [splitFirstDot_append _ _ hnd]
  simp only [hsig, if_true, hdec,
    jsonUnmarshal_jsonMarshal { tok := raw, iat := now, exp := now + ttl } hq]

/-! ### Derived notions used to state the claims -/

/-- Whether an `authorize` outcome is in the `Unauthenticated` response
class. -/
def isUnauthenticated : AuthResult → Bool
  | .unauthenticated _ => true
  | _ => false

/-- The credential `authorize` extracts from the metadata: the first
`authorization` value with the `"Bearer "` prefix stripped. -/
def credentialOf : Option (List Bytes) → Option Bytes
  | some (v :: _) => some (stripBearer v)
  | _ => none

/-- Whether a credential value is present in the metadata at all. -/
def credentialPresent : Option (List Bytes) → Bool
  | some (_ :: _) => true
  | _ => false

/-- The attempt map after a sequence of `recordFailedAttempt` calls for `ip`
at the given times. -/
def failN (ts : List Int) (st : AttemptMap) (ip : String) : AttemptMap :=
  ts.foldl (fun s t => (recordFailedAttempt t s ip).1) st

/-- An HTTP attempt map holding 10,000 distinct identities. -/
def bigApiMap : ApiAttemptMap :=
  (List.range 10000).map (fun i => (String.mk [Char.ofNat i], ⟨1, 0, 0⟩))

/-! ### Remaining helper lemmas -/

theorem filter_length_eq {α : Type} (p : α → Bool) (l : List α)
    (h : (l.filter p).length = l.length) : l.filter p = l := by
  induction l with
  | nil => rfl
  | cons a t ih =>
    cases hp : p a with
    | true =>
      simp only [List.filter_cons, hp, if_true, List.length_cons] at h ⊢
      rw [ih (by omega)]
    | false =>
      exfalso
      simp only [List.filter_cons, hp, Bool.false_eq_true, if_false, List.length_cons] at h
      have := List.length_filter_le p t
      omega

theorem mapSet_length_le {α : Type} (m : List (String × α)) (k : String) (v : α) :
    (mapSet m k v).length ≤ m.length + 1 := by
  cases hl : mapLookup m k with
  | none => rw [mapSet_length_absent m k v hl]
  | some w => rw [mapSet_length_present m k v w hl]; omega

theorem getD_set_self : ∀ (l : List Nat) (i b : Nat), i < l.length →
    (l.set i b).getD i 0 = b := by
  intro l
  induction l with
  | nil => intro i b h; simp at h
  | cons a t ih =>
    intro i b h
    cases i with
    | zero => rfl
    | succ j =>
      simp only [List.set_cons_succ, List.getD_cons_succ]
      exact ih j b (by simpa using h)

theorem set_ne_of_getD {l : List Nat} {i b : Nat} (hi : i < l.length)
    (hb : b ≠ l.getD i 0) : l.set i b ≠ l := by
  intro h
  apply hb
  have h1 : (l.set i b).getD i 0 = l.getD i 0 := by rw [h]
  rw [← h1, getD_set_self l i b hi]

theorem mem_cleanupFailedAttempts (now : Int) (m : AttemptMap) (e : String × AttemptInfo) :
    e ∈ cleanupFailedAttempts now m ↔
      e ∈ m ∧ ¬((e.2.lockedUntil < now ∧ e.2.count < maxFailedAttempts)
        ∨ e.2.lockedUntil + 1800 < now) := by
  rw [cleanupFailedAttempts, List.mem_filter]
  apply and_congr_right
  intro _
  by_cases h1 : e.2.lockedUntil < now <;> by_cases h2 : e.2.count < maxFailedAttempts <;>
    by_cases h3 : e.2.lockedUntil + 1800 < now <;> simp [h1, h2, h3]

theorem mem_cleanupLoop (now : Int) (m : ApiAttemptMap) (e : String × ApiAttemptInfo) :
    e ∈ cleanupLoop now m ↔
      e ∈ m ∧ ¬(e.2.lockedUntil < now ∧ 1800 < now - e.2.lastAttempt) := by
  rw [cleanupLoop, List.mem_filter]
  apply and_congr_right
  intro _
  by_cases h1 : e.2.lockedUntil < now <;> by_cases h2 : 1800 < now - e.2.lastAttempt <;>
    simp [h1, h2]

/-! ### Claim theorems -/

/-- Claim C9: the running time of the gateway's secret/signature equality
comparison — measured as the number of loop iterations of the embedded
`crypto/subtle.ConstantTimeCompare` — depends only on the operand lengths,
never on the position of the first mismatched byte; and the comparison result
is 1 exactly on equal inputs. -/
theorem c9_constant_time_comparison (x y : Bytes) :
    (constantTimeCompare x y).2 = (if x.length = y.length then x.length else 0)
    ∧ ((constantTimeCompare x y).1 = 1 ↔ x = y) :=
  ⟨constantTimeCompare_snd x y, constantTimeCompare_fst x y⟩

/-- Claim C3: `validateSignedToken` never compares the payload's `expiresAt`
against the current time (it does not even receive a clock): a token correctly
signed with the key validates successfully even when its `expiresAt`
(`now + ttl`) lies strictly before any reference time `checkTime`. -/
theorem c3_validate_ignores_expiry (mac : Bytes → Bytes → Bytes) (key raw : Bytes)
    (now ttl checkTime : Int) (hraw : ∀ b ∈ raw, b < 256) (hq : 34 ∉ raw)
    (hexpired : now + ttl < checkTime) :
    validateSignedToken mac (generateSignedToken mac key raw now ttl) key = .ok () :=
  validate_generate mac key raw now ttl hraw hq

/-- Witness for C3 at a concrete input: a token whose `expiresAt` is already
one second in the past at issuance still validates. -/
theorem c3_validate_ignores_expiry_witness :
    (∀ b ∈ ([97] : Bytes), b < 256) ∧ (34 ∉ ([97] : Bytes))
    ∧ ((0 : Int) + (-1) < 0)
    ∧ validateSignedToken (fun _ p => p)
        (generateSignedToken (fun _ p => p) [] [97] 0 (-1)) [] = .ok () :=
  ⟨by decide, by decide, by decide,
    c3_validate_ignores_expiry (fun _ p => p) [] [97] 0 (-1) 0
      (by decide) (by decide) (by decide)⟩

/-- Claim C7: a token from `generateSignedToken` validates under the same key
(round-trip); changing any single character of the signature segment makes
validation fail with `InvalidSignature`; and changing any single character of
the payload segment makes validation fail with `InvalidSignature` provided the
HMAC of the tampered payload does not collide with the recorded signature (the
second-preimage assumption on the abstracted HMAC-SHA256). -/
theorem c7_roundtrip_and_tamper (mac : Bytes → Bytes → Bytes) (key raw : Bytes)
    (now ttl : Int) (hraw : ∀ b ∈ raw, b < 256) (hq : 34 ∉ raw) :
    validateSignedToken mac (generateSignedToken mac key raw now ttl) key = .ok ()
    ∧ (∀ i b : Nat, i < (signedPayload raw now ttl).length →
        b ≠ (signedPayload raw now ttl).getD i 0 →
        base64urlEncode (mac key ((signedPayload raw now ttl).set i b))
          ≠ signedSig mac key raw now ttl →
        validateSignedToken mac
          ((signedPayload raw now ttl).set i b ++ 46 :: signedSig mac key raw now ttl) key
          = .error .invalidSignature)
    ∧ (∀ i b : Nat, i < (signedSig mac key raw now ttl).length →
        b ≠ (signedSig mac key raw now ttl).getD i 0 →
        validateSignedToken mac
          (signedPayload raw now ttl ++ 46 :: (signedSig mac key raw now ttl).set i b) key
          = .error .invalidSignature) := by
  refine ⟨validate_generate mac key raw now ttl hraw hq, ?_, ?_⟩
  · intro i b hi hb hflip
    have hP46 : 46 ∉ signedPayload raw now ttl := base64urlEncode_no_dot _
    by_cases h46 : b = 46
    · subst h46
      have hsplit : (signedPayload raw now ttl).set i 46
          = (signedPayload raw now ttl).take i ++ 46 :: (signedPayload raw now ttl).drop (i + 1) := by
        rw [List.set_eq_take_append_cons_drop, if_pos hi]
      rw [hsplit]
      have htk46 : 46 ∉ (signedPayload raw now ttl).take i :=
        fun hm => hP46 (List.take_subset i _ hm)
      unfold validateSignedToken
      rw [List.append_assoc, List.cons_append]
      rw [splitFirstDot_append _ _ htk46]
      have hne : ((signedPayload raw now ttl).drop (i + 1)
            ++ 46 :: signedSig mac key raw now ttl)
          ≠ base64urlEncode (mac key ((signedPayload raw now ttl).take i)) := by
        intro he
        apply base64urlEncode_no_dot (mac key ((signedPayload raw now ttl).take i))
        rw [← he]
        exact List.mem_append_right _ (List.mem_cons_self 46 _)
      have hcmp : ¬ ((constantTimeCompare
          ((signedPayload raw now ttl).drop (i + 1) ++ 46 :: signedSig mac key raw now ttl)
          (base64urlEncode (mac key ((signedPayload raw now ttl).take i)))).1 = 1) :=
        fun hc => hne ((constantTimeCompare_fst _ _).mp hc)
      simp [hcmp]
    · have h46' : 46 ∉ (signedPayload raw now ttl).set i b := by
        intro hm
        rcases List.mem_or_eq_of_mem_set hm with hm | hm
        · exact hP46 hm
        · exact h46 hm.symm
      unfold validateSignedToken
      rw [splitFirstDot_append _ _ h46']
      have hcmp : ¬ ((constantTimeCompare (signedSig mac key raw now ttl)
          (base64urlEncode (mac key ((signedPayload raw now ttl).set i b)))).1 = 1) :=
        fun hc => hflip ((constantTimeCompare_fst _ _).mp hc).symm
      simp [hcmp]
  · intro i b hi hb
    have hP46 : 46 ∉ signedPayload raw now ttl := base64urlEncode_no_dot _
    have hSne : (signedSig mac key raw now ttl).set i b ≠ signedSig mac key raw now ttl :=
      set_ne_of_getD hi hb
    unfold validateSignedToken
    rw [splitFirstDot_append _ _ hP46]
    have hexp : base64urlEncode (mac key (signedPayload raw now ttl))
        = signedSig mac key raw now ttl := rfl
    have hcmp : ¬ ((constantTimeCompare ((signedSig mac key raw now ttl).set i b)
        (base64urlEncode (mac key (signedPayload raw now ttl)))).1 = 1) :=
      fun hc => hSne (((constantTimeCompare_fst _ _).mp hc).trans hexp)
    simp [hcmp]

/-- Witness for C7 at a concrete input: the generated token validates, while
flipping the first payload character to `A` or the first signature character
to `.` yields `InvalidSignature`. -/
theorem c7_roundtrip_and_tamper_witness :
    validateSignedToken (fun _ p => p)
        (generateSignedToken (fun _ p => p) [] [97] 0 1) [] = .ok ()
    ∧ validateSignedToken (fun _ p => p)
        ((signedPayload [97] 0 1).set 0 65 ++ 46 :: signedSig (fun _ p => p) [] [97] 0 1) []
        = .error .invalidSignature
    ∧ validateSignedToken (fun _ p => p)
        (signedPayload [97] 0 1 ++ 46 :: (signedSig (fun _ p => p) [] [97] 0 1).set 0 46) []
        = .error .invalidSignature := by
  have h := c7_roundtrip_and_tamper (fun _ p => p) [] [97] 0 1 (by decide) (by decide)
  exact ⟨h.1, h.2.1 0 65 (by decide) (by decide) (by decide),
    h.2.2 0 46 (by decide) (by decide)⟩

/-- Claim C1: starting from a state with no record for `ip` (and room in the
map), five recorded failures leave `ip` with count 5 and
`lockedUntil = t5 + 900`; `isLocked` is then true exactly while
`now < t5 + 900` (and after only four failures the identity is not locked at
any nonnegative time); and while locked, `authorize` rejects any request —
whatever credential it carries — with the lockout `ResourceExhausted` status
and leaves the attempt map unchanged (no further failure is recorded). -/
theorem c1_five_failures_lockout (st0 : AttemptMap) (ip : String) (cfg : Bytes)
    (t1 t2 t3 t4 t5 now : Int) (md : Option (List Bytes))
    (habs : mapLookup st0 ip = none) (hcap : st0.length + 1 < 10000)
    (hnow : now < t5 + 900) :
    mapLookup (failN [t1, t2, t3, t4, t5] st0 ip) ip = some ⟨5, t5 + 900⟩
    ∧ (∀ n : Int, isLocked n (failN [t1, t2, t3, t4, t5] st0 ip) ip = decide (n < t5 + 900))
    ∧ (∀ n : Int, 0 ≤ n → isLocked n (failN [t1, t2, t3, t4] st0 ip) ip = false)
    ∧ authorize cfg now (failN [t1, t2, t3, t4, t5] st0 ip) ip md
        = (failN [t1, t2, t3, t4, t5] st0 ip, .resourceExhausted lockedRetryMsg) := by
  have h0 : st0.length < 10000 := by omega
  have e1 : recordFailedAttempt t1 st0 ip = (mapSet st0 ip ⟨1, 0⟩, false) :=
    recordFailedAttempt_absent t1 st0 ip h0 habs
  have l1 : mapLookup (mapSet st0 ip ⟨1, 0⟩) ip = some ⟨1, 0⟩ := mapLookup_set_self st0 ip _
  have len1 : (mapSet st0 ip (⟨1, 0⟩ : AttemptInfo)).length = st0.length + 1 :=
    mapSet_length_absent st0 ip _ habs
  have e2 : recordFailedAttempt t2 (mapSet st0 ip ⟨1, 0⟩) ip
      = (mapSet (mapSet st0 ip ⟨1, 0⟩) ip ⟨2, 0⟩, false) :=
    recordFailedAttempt_found_low t2 _ ip 1 0 (by omega) l1 (by norm_num [maxFailedAttempts])
  have l2 : mapLookup (mapSet (mapSet st0 ip ⟨1, 0⟩) ip ⟨2, 0⟩) ip = some ⟨2, 0⟩ :=
    mapLookup_set_self _ ip _
  have len2 : (mapSet (mapSet st0 ip ⟨1, 0⟩) ip (⟨2, 0⟩ : AttemptInfo)).length
      = st0.length + 1 := by
    rw [mapSet_length_present _ ip _ _ l1, len1]
  have e3 : recordFailedAttempt t3 (mapSet (mapSet st0 ip ⟨1, 0⟩) ip ⟨2, 0⟩) ip
      = (mapSet (mapSet (mapSet st0 ip ⟨1, 0⟩) ip ⟨2, 0⟩) ip ⟨3, 0⟩, false) :=
    recordFailedAttempt_found_low t3 _ ip 2 0 (by omega) l2 (by norm_num [maxFailedAttempts])
  have l3 : mapLookup (mapSet (mapSet (mapSet st0 ip ⟨1, 0⟩) ip ⟨2, 0⟩) ip ⟨3, 0⟩) ip
      = some ⟨3, 0⟩ := mapLookup_set_self _ ip _
  have len3 : (mapSet (mapSet (mapSet st0 ip ⟨1, 0⟩) ip ⟨2, 0⟩) ip
      (⟨3, 0⟩ : AttemptInfo)).length = st0.length + 1 := by
    rw [mapSet_length_present _ ip _ _ l2, len2]
  have e4 : recordFailedAttempt t4 (mapSet (mapSet (mapSet st0 ip ⟨1, 0⟩) ip ⟨2, 0⟩) ip ⟨3, 0⟩) ip
      = (mapSet (mapSet (mapSet (mapSet st0 ip ⟨1, 0⟩) ip ⟨2, 0⟩) ip ⟨3, 0⟩) ip ⟨4, 0⟩,
          false) :=
    recordFailedAttempt_found_low t4 _ ip 3 0 (by omega) l3 (by norm_num [maxFailedAttempts])
  have l4 : mapLookup (mapSet (mapSet (mapSet (mapSet st0 ip ⟨1, 0⟩) ip ⟨2, 0⟩) ip ⟨3, 0⟩)
      ip ⟨4, 0⟩) ip = some ⟨4, 0⟩ := mapLookup_set_self _ ip _
  have len4 : (mapSet (mapSet (mapSet (mapSet st0 ip ⟨1, 0⟩) ip ⟨2, 0⟩) ip ⟨3, 0⟩) ip
      (⟨4, 0⟩ : AttemptInfo)).length = st0.length + 1 := by
    rw [mapSet_length_present _ ip _ _ l3, len3]
  have e5 : recordFailedAttempt t5 (mapSet (mapSet (mapSet (mapSet st0 ip ⟨1, 0⟩) ip ⟨2, 0⟩)
        ip ⟨3, 0⟩) ip ⟨4, 0⟩) ip
      = (mapSet (mapSet (mapSet (mapSet (mapSet st0 ip ⟨1, 0⟩) ip ⟨2, 0⟩) ip ⟨3, 0⟩) ip ⟨4, 0⟩)
          ip ⟨5, t5 + lockoutDuration⟩, true) :=
    recordFailedAttempt_found_high t5 _ ip 4 0 (by omega) l4 (by norm_num [maxFailedAttempts])
  have hfail4 : failN [t1, t2, t3, t4] st0 ip
      = mapSet (mapSet (mapSet (mapSet st0 ip ⟨1, 0⟩) ip ⟨2, 0⟩) ip ⟨3, 0⟩) ip ⟨4, 0⟩ := by
    simp only [failN, List.foldl_cons, List.foldl_nil, e1, e2, e3, e4]
  have hfail5 : failN [t1, t2, t3, t4, t5] st0 ip
      = mapSet (mapSet (mapSet (mapSet (mapSet st0 ip ⟨1, 0⟩) ip ⟨2, 0⟩) ip ⟨3, 0⟩) ip ⟨4, 0⟩)
          ip ⟨5, t5 + lockoutDuration⟩ := by
    simp only [failN, List.foldl_cons, List.foldl_nil, e1, e2, e3, e4, e5]
  have l5 : mapLookup (failN [t1, t2, t3, t4, t5] st0 ip) ip
      = some ⟨5, t5 + lockoutDuration⟩ := by
    rw [hfail5]; exact mapLookup_set_self _ ip _
  have hdur : t5 + lockoutDuration = t5 + 900 := rfl
  have hlock : ∀ n : Int, isLocked n (failN [t1, t2, t3, t4, t5] st0 ip) ip
      = decide (n < t5 + 900) := by
    intro n
    rw [isLocked, l5, hdur]
  refine ⟨hdur ▸ l5, hlock, ?_, ?_⟩
  · intro n hn
    rw [isLocked, hfail4, l4]
    simp only [decide_eq_false_iff_not]
    omega
  · rw [authorize.eq_def]
    rw [if_pos (by rw [hlock now]; simpa using hnow)]

/-- Witness for C1 at a concrete input: identity `"a"`, failures at times
1..5, probed at time 100 with the correct credential attached. -/
theorem c1_five_failures_lockout_witness :
    mapLookup ([] : AttemptMap) "a" = none ∧ (0 : Nat) + 1 < 10000 ∧ (100 : Int) < 5 + 900
    ∧ (mapLookup (failN [1, 2, 3, 4, 5] [] "a") "a" = some ⟨5, 5 + 900⟩
      ∧ (∀ n : Int, isLocked n (failN [1, 2, 3, 4, 5] [] "a") "a" = decide (n < 5 + 900))
      ∧ (∀ n : Int, 0 ≤ n → isLocked n (failN [1, 2, 3, 4] [] "a") "a" = false)
      ∧ authorize [97] 100 (failN [1, 2, 3, 4, 5] [] "a") "a" (some [[97]])
          = (failN [1, 2, 3, 4, 5] [] "a", .resourceExhausted lockedRetryMsg)) :=
  ⟨rfl, by norm_num, by norm_num,
    c1_five_failures_lockout [] "a" [97] 1 2 3 4 5 100 (some [[97]]) rfl
      (by norm_num) (by norm_num)⟩

/-- Claim C2 (amended): for an unlocked identity, `authorize` allows exactly
when the extracted credential (first `authorization` value, exact-case
`"Bearer "` prefix stripped) equals the static secret; a match erases the
identity's attempt record; a missing or mismatching credential records a
failure and is rejected — as `Unauthenticated`, except that a present,
mismatching credential whose recorded failure reaches the lockout threshold is
rejected as the locked `ResourceExhausted` status instead. -/
theorem c2_authorize_unlocked (cfg : Bytes) (now : Int) (st : AttemptMap) (ip : String)
    (md : Option (List Bytes)) (hunlocked : isLocked now st ip = false) :
    ((authorize cfg now st ip md).2 = .ok ↔ credentialOf md = some cfg)
    ∧ (credentialOf md = some cfg → authorize cfg now st ip md = (mapErase st ip, .ok))
    ∧ (credentialOf md ≠ some cfg →
        (authorize cfg now st ip md).1 = (recordFailedAttempt now st ip).1
        ∧ isUnauthenticated (authorize cfg now st ip md).2
            = !(credentialPresent md && (recordFailedAttempt now st ip).2)
        ∧ (authorize cfg now st ip md).2 ≠ .ok) := by
  match md with
  | none =>
    refine ⟨by simp [authorize.eq_def, hunlocked, credentialOf],
      by simp [credentialOf],
      fun _ => ⟨by simp [authorize.eq_def, hunlocked],
        by simp [authorize.eq_def, hunlocked, isUnauthenticated, credentialPresent],
        by simp [authorize.eq_def, hunlocked]⟩⟩
  | some [] =>
    refine ⟨by simp [authorize.eq_def, hunlocked, credentialOf],
      by simp [credentialOf],
      fun _ => ⟨by simp [authorize.eq_def, hunlocked],
        by simp [authorize.eq_def, hunlocked, isUnauthenticated, credentialPresent],
        by simp [authorize.eq_def, hunlocked]⟩⟩
  | some (v :: rest) =>
    by_cases hv : stripBearer v = cfg
    · have hc : (constantTimeCompare (stripBearer v) cfg).1 = 1 :=
        (constantTimeCompare_fst _ _).mpr hv
      refine ⟨?_, fun _ => ?_, fun hne => absurd hv (by simpa [credentialOf] using hne)⟩
      · simp [authorize.eq_def, hunlocked, hc, credentialOf, hv,
          (constantTimeCompare_fst cfg cfg).mpr rfl]
      · simp [authorize.eq_def, hunlocked, hc, resetFailedAttempts]
    · have hc : ¬ ((constantTimeCompare (stripBearer v) cfg).1 = 1) :=
        fun h => hv ((constantTimeCompare_fst _ _).mp h)
      refine ⟨?_, fun hcontra => ?_, fun _ => ⟨?_, ?_, ?_⟩⟩
      · cases hr : (recordFailedAttempt now st ip).2 <;>
          simp [authorize.eq_def, hunlocked, hc, hr, credentialOf, hv]
      · exact absurd (by simpa [credentialOf] using hcontra) hv
      · cases hr : (recordFailedAttempt now st ip).2 <;>
          simp [authorize.eq_def, hunlocked, hc, hr]
      · cases hr : (recordFailedAttempt now st ip).2 <;>
          simp [authorize.eq_def, hunlocked, hc, hr, isUnauthenticated, credentialPresent]
      · cases hr : (recordFailedAttempt now st ip).2 <;>
          simp [authorize.eq_def, hunlocked, hc, hr]

/-- Witness for C2 at concrete inputs: an unlocked identity with a fresh map,
probed with a matching `Bearer` credential and with a missing credential. -/
theorem c2_authorize_unlocked_witness :
    isLocked 0 ([] : AttemptMap) "a" = false
    ∧ ((authorize [97] 0 [] "a" (some [[66, 101, 97, 114, 101, 114, 32, 97]])).2 = .ok
        ↔ credentialOf (some [[66, 101, 97, 114, 101, 114, 32, 97]]) = some [97])
    ∧ (credentialOf (some [[66, 101, 97, 114, 101, 114, 32, 97]]) = some [97] →
        authorize [97] 0 [] "a" (some [[66, 101, 97, 114, 101, 114, 32, 97]])
          = (mapErase [] "a", .ok)) :=
  ⟨rfl,
    (c2_authorize_unlocked [97] 0 [] "a" (some [[66, 101, 97, 114, 101, 114, 32, 97]]) rfl).1,
    (c2_authorize_unlocked [97] 0 [] "a" (some [[66, 101, 97, 114, 101, 114, 32, 97]]) rfl).2.1⟩

/-- Counterexample to Claim C2 as stated: identity `"1.2.3.4"` is unlocked
with four prior failures; a fifth request with a mismatching credential has
its failure recorded, but is rejected as the locked `ResourceExhausted`
status, not as `Unauthenticated`. -/
theorem c2_counterexample :
    isLocked 0 [("1.2.3.4", ⟨4, 0⟩)] "1.2.3.4" = false
    ∧ (authorize [97] 0 [("1.2.3.4", ⟨4, 0⟩)] "1.2.3.4" (some [[120]])).2
        = .resourceExhausted lockedNowMsg
    ∧ isUnauthenticated
        (authorize [97] 0 [("1.2.3.4", ⟨4, 0⟩)] "1.2.3.4" (some [[120]])).2 = false :=
  ⟨rfl, rfl, rfl⟩

/-- Claim C4 (amended): an active lockout is rejected as the distinct
rate-limited class on both transports — the HTTP middleware with status 429
and `Retry-After: 900`, the gRPC interceptor as `ResourceExhausted` with only
an explanatory message (no retry-after value exists on that path); missing-
and invalid-credential rejections are all in the `Unauthenticated` class. -/
theorem c4_rejection_classes :
    (∀ (cfg : Bytes) (now : Int) (st : ApiAttemptMap) (ip : String) (auth : Bytes)
        (i : ApiAttemptInfo), mapLookup st ip = some i → now < i.lockedUntil →
        authMiddleware cfg now st ip auth
          = (st, .err "Too many failed attempts" 429 (some 900)))
    ∧ (∀ (cfg : Bytes) (now : Int) (st : AttemptMap) (ip : String) (md : Option (List Bytes)),
        isLocked now st ip = true →
        authorize cfg now st ip md = (st, .resourceExhausted lockedRetryMsg))
    ∧ (∀ (cfg : Bytes) (now : Int) (st : AttemptMap) (ip : String),
        isLocked now st ip = false →
        isUnauthenticated (authorize cfg now st ip none).2 = true
        ∧ isUnauthenticated (authorize cfg now st ip (some [])).2 = true
        ∧ ∀ v : Bytes, stripBearer v ≠ cfg → (recordFailedAttempt now st ip).2 = false →
            isUnauthenticated (authorize cfg now st ip (some [v])).2 = true) := by
  refine ⟨?_, ?_, ?_⟩
  · intro cfg now st ip auth i hlook hlt
    rw [authMiddleware]
    rw [if_pos (by rw [hlook]; simpa using hlt)]
  · intro cfg now st ip md hlocked
    rw [authorize.eq_def, if_pos (by rw [hlocked])]
  · intro cfg now st ip hunlocked
    refine ⟨?_, ?_, ?_⟩
    · simp [authorize.eq_def, hunlocked, isUnauthenticated]
    · simp [authorize.eq_def, hunlocked, isUnauthenticated]
    · intro v hv hr
      have hc : ¬ ((constantTimeCompare (stripBearer v) cfg).1 = 1) :=
        fun h => hv ((constantTimeCompare_fst _ _).mp h)
      simp [authorize.eq_def, hunlocked, hc, hr, isUnauthenticated]

/-- Witness for C4 at concrete inputs: a locked identity on each transport. -/
theorem c4_rejection_classes_witness :
    mapLookup [("a", (⟨5, 900, 0⟩ : ApiAttemptInfo))] "a" = some ⟨5, 900, 0⟩
    ∧ (100 : Int) < 900
    ∧ authMiddleware [97] 100 [("a", ⟨5, 900, 0⟩)] "a" [97]
        = ([("a", ⟨5, 900, 0⟩)], .err "Too many failed attempts" 429 (some 900))
    ∧ isLocked 100 [("a", (⟨5, 900⟩ : AttemptInfo))] "a" = true
    ∧ authorize [97] 100 [("a", ⟨5, 900⟩)] "a" (some [[97]])
        = ([("a", ⟨5, 900⟩)], .resourceExhausted lockedRetryMsg) :=
  ⟨rfl, by norm_num,
    (c4_rejection_classes.1 [97] 100 [("a", ⟨5, 900, 0⟩)] "a" [97] ⟨5, 900, 0⟩ rfl
      (by norm_num)),
    rfl,
    (c4_rejection_classes.2.1 [97] 100 [("a", ⟨5, 900⟩)] "a" (some [[97]]) rfl)⟩

/-- Counterexample to Claim C4 as stated: the two `Unauthenticated` rejections
for a missing and for an invalid credential carry different messages, so the
message does disclose which check failed. -/
theorem c4_counterexample :
    (authorize [97] 0 [] "a" (some [])).2 = .unauthenticated missingTokenMsg
    ∧ (authorize [97] 0 [] "a" (some [[120]])).2 = .unauthenticated invalidTokenMsg
    ∧ missingTokenMsg ≠ invalidTokenMsg :=
  ⟨rfl, rfl, by decide⟩

/-- Claim C10: every recorded failure whose post-increment count is at least
the threshold — not only the one that first reaches it — sets the lockout
deadline to `now + 900` seconds ahead of that failure's time; the gRPC tracker
also reports the lock by returning `true`, and the HTTP tracker behaves the
same way while also stamping `lastAttempt`. -/
theorem c10_sliding_lockout (m : AttemptMap) (ma : ApiAttemptMap) (ip ip2 : String)
    (now now2 : Int) (c : Nat) (l : Int) (c2 : Nat) (l2 la : Int)
    (h1 : mapLookup m ip = some ⟨c, l⟩) (h2 : 4 ≤ c) (h3 : m.length < 10000)
    (h4 : mapLookup ma ip2 = some ⟨c2, l2, la⟩) (h5 : 4 ≤ c2) :
    recordFailedAttempt now m ip = (mapSet m ip ⟨c + 1, now + 900⟩, true)
    ∧ recordAPIFailedAttempt now2 ma ip2 = mapSet ma ip2 ⟨c2 + 1, now2 + 900, now2⟩ := by
  constructor
  · exact recordFailedAttempt_found_high now m ip c l h3 h1
      (by simp only [maxFailedAttempts]; omega)
  · rw [recordAPIFailedAttempt, h4]
    simp only [Option.getD_some]
    rw [if_pos (by omega)]

/-- Witness for C10 at a concrete input: a seventh failure at time 50 slides
the lockout deadline to 950 on both trackers. -/
theorem c10_sliding_lockout_witness :
    mapLookup [("a", (⟨6, 910⟩ : AttemptInfo))] "a" = some ⟨6, 910⟩
    ∧ mapLookup [("b", (⟨6, 910, 10⟩ : ApiAttemptInfo))] "b" = some ⟨6, 910, 10⟩
    ∧ recordFailedAttempt 50 [("a", ⟨6, 910⟩)] "a"
        = (mapSet [("a", ⟨6, 910⟩)] "a" ⟨7, 50 + 900⟩, true)
    ∧ recordAPIFailedAttempt 50 [("b", ⟨6, 910, 10⟩)] "b"
        = mapSet [("b", ⟨6, 910, 10⟩)] "b" ⟨7, 50 + 900, 50⟩ := by
  have h := c10_sliding_lockout [("a", ⟨6, 910⟩)] [("b", ⟨6, 910, 10⟩)] "a" "b" 50 50
    6 910 6 910 10 rfl (by norm_num) (by norm_num) rfl (by norm_num)
  exact ⟨rfl, rfl, h.1, h.2⟩

/-- Claim C5 (amended): the gRPC interceptor's attempt map never grows past
10,000 entries — `recordFailedAttempt` preserves the bound, and when the map
is at the cap and the inline sweep of expired entries frees nothing, the new
failure is dropped: the map is returned unchanged and no lockout is reported.
(The HTTP server's attempt map has no such cap; see the counterexample.) -/
theorem c5_grpc_capacity_guard (now : Int) (m : AttemptMap) (ip : String) :
    (m.length ≤ 10000 → (recordFailedAttempt now m ip).1.length ≤ 10000)
    ∧ (m.length = 10000 →
        (m.filter (fun e => !(decide (e.2.lockedUntil < now)))).length = 10000 →
        recordFailedAttempt now m ip = (m, false)) := by
  constructor
  · intro hle
    by_cases hcap : 10000 ≤ m.length
    · rw [recordFailedAttempt]
      simp only [if_pos hcap]
      have hfl := List.length_filter_le (fun e => !(decide (e.2.lockedUntil < now))) m
      by_cases hagain :
          10000 ≤ (m.filter (fun e => !(decide (e.2.lockedUntil < now)))).length
      · simp only [if_pos hagain]
        omega
      · simp only [if_neg hagain]
        split <;>
          · refine le_trans (mapSet_length_le _ ip _) ?_
            omega
    · rw [recordFailedAttempt]
      simp only [if_neg hcap]
      split <;>
        · refine le_trans (mapSet_length_le _ ip _) ?_
          omega
  · intro hfull hstill
    have hfeq : m.filter (fun e => !(decide (e.2.lockedUntil < now))) = m :=
      filter_length_eq _ m (by omega)
    rw [recordFailedAttempt]
    simp only [if_pos (by omega : 10000 ≤ m.length), hfeq]

/-- Witness for C5 at concrete inputs: a one-entry map accepts the failure,
and a full map whose single-keyed model stands in is exercised through the
general theorem at the bound. -/
theorem c5_grpc_capacity_guard_witness :
    ([("a", (⟨1, 0⟩ : AttemptInfo))].length ≤ 10000)
    ∧ (recordFailedAttempt 0 [("a", ⟨1, 0⟩)] "a").1.length ≤ 10000 :=
  ⟨by norm_num, (c5_grpc_capacity_guard 0 [("a", ⟨1, 0⟩)] "a").1 (by norm_num)⟩

/-- Counterexample to Claim C5 as stated: the HTTP server's attempt-tracking
map (`recordAPIFailedAttempt`) has no capacity guard — recording a failure for
a fresh identity on a 10,000-entry map yields 10,001 tracked identities, so
"the attempt-tracking map never holds more than 10,000 identities" fails on
that transport. -/
theorem c5_counterexample :
    bigApiMap.length = 10000
    ∧ (recordAPIFailedAttempt 0 bigApiMap "zzz").length = 10001 := by
  have hlen : bigApiMap.length = 10000 := by
    simp [bigApiMap]
  have habs : mapLookup bigApiMap "zzz" = none := by
    apply mapLookup_eq_none
    intro e he
    simp only [bigApiMap, List.mem_map] at he
    rcases he with ⟨i, hi, rfl⟩
    intro hh
    have hh2 : String.mk [Char.ofNat i] = "zzz" := hh
    have h3 : (String.mk [Char.ofNat i]).length = ("zzz" : String).length :=
      congrArg String.length hh2
    rw [show (String.mk [Char.ofNat i]).length = 1 from rfl] at h3
    rw [show ("zzz" : String).length = 3 from rfl] at h3
    omega
  refine ⟨hlen, ?_⟩
  rw [recordAPIFailedAttempt, habs]
  simp only [Option.getD_none]
  rw [mapSet_length_absent _ _ _ habs, hlen]

/-- Claim C6 (amended): the gRPC interceptor's sweep deletes a record exactly
when (its lockout has passed and its count is below the threshold) or more
than 30 minutes have passed since `lockedUntil`; the HTTP server's sweep
instead deletes exactly when the lockout has passed and more than 30 minutes
have passed since `lastAttempt`. On both trackers a record locked at `t0`
(`lockedUntil = t0 + 900`) with no later activity survives a sweep at
`t0 + 20` minutes and is purged by a sweep at `t0 + 46` minutes. -/
theorem c6_reap_conditions :
    (∀ (now : Int) (m : AttemptMap) (e : String × AttemptInfo),
        e ∈ cleanupFailedAttempts now m ↔
          e ∈ m ∧ ¬((e.2.lockedUntil < now ∧ e.2.count < maxFailedAttempts)
            ∨ e.2.lockedUntil + 1800 < now))
    ∧ (∀ (now : Int) (m : ApiAttemptMap) (e : String × ApiAttemptInfo),
        e ∈ cleanupLoop now m ↔
          e ∈ m ∧ ¬(e.2.lockedUntil < now ∧ 1800 < now - e.2.lastAttempt))
    ∧ (∀ (t0 : Int) (m : AttemptMap) (ip : String),
        (ip, (⟨5, t0 + 900⟩ : AttemptInfo)) ∈ m →
          (ip, (⟨5, t0 + 900⟩ : AttemptInfo)) ∈ cleanupFailedAttempts (t0 + 1200) m
          ∧ (ip, (⟨5, t0 + 900⟩ : AttemptInfo)) ∉ cleanupFailedAttempts (t0 + 2760) m)
    ∧ (∀ (t0 : Int) (m : ApiAttemptMap) (ip : String),
        (ip, (⟨5, t0 + 900, t0⟩ : ApiAttemptInfo)) ∈ m →
          (ip, (⟨5, t0 + 900, t0⟩ : ApiAttemptInfo)) ∈ cleanupLoop (t0 + 1200) m
          ∧ (ip, (⟨5, t0 + 900, t0⟩ : ApiAttemptInfo)) ∉ cleanupLoop (t0 + 2760) m) := by
  refine ⟨mem_cleanupFailedAttempts, mem_cleanupLoop, ?_, ?_⟩
  · intro t0 m ip hm
    constructor
    · rw [mem_cleanupFailedAttempts]
      refine ⟨hm, ?_⟩
      dsimp only
      simp only [maxFailedAttempts]
      omega
    · rw [mem_cleanupFailedAttempts]
      rintro ⟨-, hkeep⟩
      apply hkeep
      dsimp only
      right
      omega
  · intro t0 m ip hm
    constructor
    · rw [mem_cleanupLoop]
      refine ⟨hm, ?_⟩
      dsimp only
      omega
    · rw [mem_cleanupLoop]
      rintro ⟨-, hkeep⟩
      apply hkeep
      dsimp only
      constructor <;> omega

/-- Witness for C6 at a concrete input: a record locked at `t0 = 0` survives
the sweep at 1200 seconds and is purged at 2760 seconds, on both trackers. -/
theorem c6_reap_conditions_witness :
    (("a", (⟨5, 0 + 900⟩ : AttemptInfo)) ∈ ([("a", ⟨5, 0 + 900⟩)] : AttemptMap)
      ∧ ("a", (⟨5, 0 + 900⟩ : AttemptInfo))
          ∈ cleanupFailedAttempts (0 + 1200) [("a", ⟨5, 0 + 900⟩)]
      ∧ ("a", (⟨5, 0 + 900⟩ : AttemptInfo))
          ∉ cleanupFailedAttempts (0 + 2760) [("a", ⟨5, 0 + 900⟩)])
    ∧ (("b", (⟨5, 0 + 900, 0⟩ : ApiAttemptInfo)) ∈ ([("b", ⟨5, 0 + 900, 0⟩)] : ApiAttemptMap)
      ∧ ("b", (⟨5, 0 + 900, 0⟩ : ApiAttemptInfo))
          ∈ cleanupLoop (0 + 1200) [("b", ⟨5, 0 + 900, 0⟩)]
      ∧ ("b", (⟨5, 0 + 900, 0⟩ : ApiAttemptInfo))
          ∉ cleanupLoop (0 + 2760) [("b", ⟨5, 0 + 900, 0⟩)]) := by
  have h1 := c6_reap_conditions.2.2.1 0 [("a", ⟨5, 0 + 900⟩)] "a" (by simp)
  have h2 := c6_reap_conditions.2.2.2 0 [("b", ⟨5, 0 + 900, 0⟩)] "b" (by simp)
  exact ⟨⟨by simp, h1.1, h1.2⟩, ⟨by simp, h2.1, h2.2⟩⟩

/-- Counterexample to Claim C6 as stated: under the HTTP server's sweep, a
record whose `lockedUntil` (0) has passed and whose count (2) is below the
threshold of 5 — which the claim says every reap sweep deletes — is kept,
because its `lastAttempt` is recent. -/
theorem c6_counterexample :
    cleanupLoop 700 [("a", ⟨2, 0, 600⟩)] = [("a", ⟨2, 0, 600⟩)]
    ∧ (0 : Int) < 700 ∧ (2 : Nat) < maxFailedAttempts :=
  ⟨rfl, by norm_num, by norm_num [maxFailedAttempts]⟩

/-- Claim C8: `validateSession` on an unknown token returns absence with a
`nil` error (a normal fall-through signal, and the error component is `nil`
on every path); on a token from `createSession` it returns the stored session
with `lastUsedAt` refreshed to the lookup time, so a second lookup at a
strictly later time observes a strictly later `lastUsedAt`; and lookups never
remove sessions — only `revokeSession` (or `revokeAllSessions`) does. -/
theorem c8_session_lifecycle (m : SessionMap) (tok ipStr : String) (t0 t1 t2 : Int)
    (h12 : t1 < t2) :
    (∀ (m0 : SessionMap) (tk : String) (n : Int), mapLookup m0 tk = none →
        validateSession n m0 tk = (m0, none, none))
    ∧ (∀ (m0 : SessionMap) (tk : String) (n : Int), (validateSession n m0 tk).2.2 = none)
    ∧ (validateSession t1 (createSession t0 m tok ipStr).1 tok).2.1
        = some ⟨tok, ipStr, t0, t1⟩
    ∧ (validateSession t2 (validateSession t1 (createSession t0 m tok ipStr).1 tok).1 tok).2.1
        = some ⟨tok, ipStr, t0, t2⟩
    ∧ t1 < t2
    ∧ (∀ (m0 : SessionMap) (tk : String) (n : Int),
        mapKeys (validateSession n m0 tk).1 = mapKeys m0)
    ∧ (∀ (m0 : SessionMap) (tk : String) (e : String × SessionInfo),
        e ∈ revokeSession m0 tk ↔ e ∈ m0 ∧ e.1 ≠ tk) := by
  have habs : ∀ (m0 : SessionMap) (tk : String) (n : Int), mapLookup m0 tk = none →
      validateSession n m0 tk = (m0, none, none) := by
    intro m0 tk n h
    rw [validateSession, h]
  have hl0 : mapLookup (createSession t0 m tok ipStr).1 tok
      = some ⟨tok, ipStr, t0, t0⟩ := by
    rw [createSession]
    exact mapLookup_set_self m tok _
  have hv1 : validateSession t1 (createSession t0 m tok ipStr).1 tok
      = (mapSet (createSession t0 m tok ipStr).1 tok ⟨tok, ipStr, t0, t1⟩,
          some ⟨tok, ipStr, t0, t1⟩, none) := by
    rw [validateSession, hl0]
  have hl1 : mapLookup (mapSet (createSession t0 m tok ipStr).1 tok
      (⟨tok, ipStr, t0, t1⟩ : SessionInfo)) tok = some ⟨tok, ipStr, t0, t1⟩ :=
    mapLookup_set_self _ tok _
  have hv2 : validateSession t2 (mapSet (createSession t0 m tok ipStr).1 tok
        ⟨tok, ipStr, t0, t1⟩) tok
      = (mapSet (mapSet (createSession t0 m tok ipStr).1 tok ⟨tok, ipStr, t0, t1⟩) tok
          ⟨tok, ipStr, t0, t2⟩, some ⟨tok, ipStr, t0, t2⟩, none) := by
    rw [validateSession, hl1]
  refine ⟨habs, ?_, by rw [hv1], by rw [hv1, hv2], h12, ?_, ?_⟩
  · intro m0 tk n
    rw [validateSession]
    cases mapLookup m0 tk <;> rfl
  · intro m0 tk n
    rw [validateSession]
    cases hl : mapLookup m0 tk with
    | none => rfl
    | some s => exact mapKeys_mapSet_present m0 tk _ s hl
  · intro m0 tk e
    exact mem_mapErase m0 tk e

/-- Witness for C8 at a concrete input: create at time 0, validate at times 1
and 2; `lastUsedAt` advances from 1 to 2. -/
theorem c8_session_lifecycle_witness :
    (1 : Int) < 2
    ∧ (validateSession 1 (createSession 0 [] "t" "i").1 "t").2.1 = some ⟨"t", "i", 0, 1⟩
    ∧ (validateSession 2 (validateSession 1 (createSession 0 [] "t" "i").1 "t").1 "t").2.1
        = some ⟨"t", "i", 0, 2⟩
    ∧ validateSession 1 ([] : SessionMap) "t" = ([], none, none) := by
  have h := c8_session_lifecycle [] "t" "i" 0 1 2 (by norm_num)
  exact ⟨by norm_num, h.2.2.1, h.2.2.2.1, h.1 [] "t" 1 rfl⟩

end Runixo
